import Mathlib

/-!
Verification of the paper_reader repository core: pagination
(server.py get_paper_content / _get_paper_content_internal), smart search
ranking (paper_tools/arxiv_search.py ArxivSearch._smart_sort), PDF download
validation (ArxivSearch.download_pdf / _verify_pdf), PDF-to-markdown
conversion chain (paper_tools/pdf_converter.py PDFConverter.convert), and
the paper cache with its eviction policy (paper_tools/paper_cache.py
PaperCache.save / cleanup).

Each Lean definition is a shallow embedding of the corresponding Python
function; machine-level effects (filesystem, SQLite, network) are made
explicit as association lists and oracle parameters.
-/

/-! # ContentPaginator: server.py, _get_paper_content_internal lines 490-565

The Python code is

    max_chars = max(1000, min(max_chars, 100000))
    page = max(1, page)
    ...
    total_chars = len(content)
    total_pages = (total_chars + max_chars - 1) // max_chars
    total_pages = max(1, total_pages)
    if page > total_pages:
        page = total_pages
    start_idx = (page - 1) * max_chars
    end_idx = min(start_idx + max_chars, total_chars)
    page_content = content[start_idx:end_idx]

Text is modelled as `List Char`, the requested page number as `Int`
(a Python int may be negative), and the character limit as `Nat` (the
pagination arithmetic itself, lines 555-565, is parametric in the limit;
the clamp on line 492 is modelled separately by `clampMaxChars`).
-/

structure PageResult where
  pageContent : List Char
  pageNumber : Nat
  totalPages : Nat
deriving DecidableEq, Repr

/-- Line 557-558: `total_pages = (total_chars + max_chars - 1) // max_chars`
then `total_pages = max(1, total_pages)`. -/
def totalPagesOf (totalChars limit : Nat) : Nat :=
  max 1 ((totalChars + limit - 1) / limit)

/-- Lines 493 and 555-565 of server.py: clamp the page up to 1, compute
`total_pages`, clamp the page down to `total_pages`, and slice
`content[start_idx:end_idx]`. -/
def paginate (content : List Char) (pageReq : Int) (limit : Nat) : PageResult :=
  let totalChars := content.length
  let tp := totalPagesOf totalChars limit
  let p1 : Int := max 1 pageReq
  let p : Nat := if (tp : Int) < p1 then tp else p1.toNat
  let start := (p - 1) * limit
  let stop := min (start + limit) totalChars
  { pageContent := (content.drop start).take (stop - start)
    pageNumber := p
    totalPages := tp }

/-- Line 492 of server.py: `max_chars = max(1000, min(max_chars, 100000))`. -/
def clampMaxChars (maxChars : Int) : Int :=
  max 1000 (min maxChars 100000)

/-- Lines 490-565 of server.py composed: clamp `max_chars`, then paginate. -/
def getPaperContentPaginate (content : List Char) (page maxChars : Int) : PageResult :=
  paginate content page (clampMaxChars maxChars).toNat

/-! Arithmetic facts about the ceiling computation. -/

theorem totalPagesOf_pos (n limit : Nat) : 1 ≤ totalPagesOf n limit := by
  simp [totalPagesOf]

theorem le_totalPagesOf_mul (n limit : Nat) (hl : 0 < limit) :
    n ≤ totalPagesOf n limit * limit := by
  unfold totalPagesOf
  have hdm := Nat.div_add_mod (n + limit - 1) limit
  have hmlt : (n + limit - 1) % limit < limit := Nat.mod_lt _ hl
  rw [Nat.mul_comm limit ((n + limit - 1) / limit)] at hdm
  rcases Nat.eq_zero_or_pos ((n + limit - 1) / limit) with hq | hq
  · rw [hq] at hdm ⊢
    simp only [Nat.zero_mul, Nat.zero_add] at hdm
    have hn : n = 0 := by omega
    simp [hn]
  · have hmax : max 1 ((n + limit - 1) / limit) = (n + limit - 1) / limit :=
      Nat.max_eq_right hq
    rw [hmax]
    omega

theorem totalPagesOf_pred_mul_lt (n limit : Nat) (hl : 0 < limit) (hn : 0 < n) :
    (totalPagesOf n limit - 1) * limit < n := by
  unfold totalPagesOf
  have hdm := Nat.div_add_mod (n + limit - 1) limit
  have hmlt : (n + limit - 1) % limit < limit := Nat.mod_lt _ hl
  rw [Nat.mul_comm limit ((n + limit - 1) / limit)] at hdm
  have hq : 1 ≤ (n + limit - 1) / limit := by
    rcases Nat.eq_zero_or_pos ((n + limit - 1) / limit) with h0 | h1
    · rw [h0] at hdm
      simp only [Nat.zero_mul, Nat.zero_add] at hdm
      omega
    · exact h1
  have hmax : max 1 ((n + limit - 1) / limit) = (n + limit - 1) / limit :=
    Nat.max_eq_right hq
  rw [hmax]
  have hexp : ((n + limit - 1) / limit - 1) * limit
      = (n + limit - 1) / limit * limit - limit := Nat.sub_one_mul _ _
  omega

theorem paginate_totalPages (content : List Char) (pageReq : Int) (limit : Nat) :
    (paginate content pageReq limit).totalPages = totalPagesOf content.length limit := rfl

/-- When the requested page is already in range, `paginate` returns exactly
the slice of `limit` characters starting at `(p - 1) * limit`. -/
theorem paginate_in_range (content : List Char) (limit p : Nat) (hl : 0 < limit)
    (hp1 : 1 ≤ p) (hple : p ≤ totalPagesOf content.length limit) :
    paginate content (p : Int) limit
      = { pageContent := (content.drop ((p - 1) * limit)).take limit
          pageNumber := p
          totalPages := totalPagesOf content.length limit } := by
  have hmax : max (1 : Int) (p : Int) = (p : Int) := by
    have h1 : (1 : Int) ≤ (p : Int) := by exact_mod_cast hp1
    exact max_eq_right h1
  have hcond : ¬ ((totalPagesOf content.length limit : Int) < (p : Int)) := by
    exact_mod_cast Nat.not_lt.mpr hple
  simp only [paginate, hmax, if_neg hcond, Int.toNat_natCast, PageResult.mk.injEq,
    and_true, true_and]
  rw [List.take_eq_take]
  simp only [List.length_take, List.length_drop]
  omega

theorem paginate_content_le (content : List Char) (p : Int) (limit : Nat) :
    (paginate content p limit).pageContent.length ≤ limit := by
  simp only [paginate, List.length_take, List.length_drop]
  omega

theorem paginate_pageNumber_pos (content : List Char) (p : Int) (limit : Nat) :
    1 ≤ (paginate content p limit).pageNumber := by
  simp only [paginate]
  split
  · exact totalPagesOf_pos _ _
  · omega

/-- Splitting a list into `n` consecutive chunks of `limit` characters and
flattening them reproduces the list, as soon as `n * limit` covers it. -/
theorem chunks_flatten (limit : Nat) (n : Nat) :
    ∀ (content : List Char), content.length ≤ n * limit →
      ((List.range n).map (fun i => (content.drop (i * limit)).take limit)).flatten
        = content := by
  induction n with
  | zero =>
    intro content h
    simp only [Nat.zero_mul, Nat.le_zero] at h
    have hnil : content = [] := List.eq_nil_of_length_eq_zero h
    simp [hnil]
  | succ n ih =>
    intro content h
    rw [List.range_succ_eq_map]
    simp only [List.map_cons, List.map_map, List.flatten_cons, Nat.zero_mul,
      List.drop_zero]
    have hfun : ∀ i ∈ List.range n,
        ((fun i => (content.drop (i * limit)).take limit) ∘ Nat.succ) i
          = ((content.drop limit).drop (i * limit)).take limit := by
      intro i _
      simp only [Function.comp_apply]
      rw [List.drop_drop]
      have : Nat.succ i * limit = limit + i * limit := by
        rw [Nat.succ_mul, Nat.add_comm]
      rw [this]
    rw [List.map_congr_left hfun]
    rw [ih (content.drop limit) (by simp only [List.length_drop]; rw [Nat.succ_mul] at h; omega)]
    exact List.take_append_drop limit content

theorem paginate_nil (pageReq : Int) (limit : Nat) (hl : 0 < limit) :
    paginate [] pageReq limit = ⟨[], 1, 1⟩ := by
  have h0 : totalPagesOf 0 limit = 1 := by
    unfold totalPagesOf
    have hz : (0 + limit - 1) / limit = 0 := Nat.div_eq_of_lt (by omega)
    rw [hz]
    omega
  simp only [paginate, List.length_nil, h0, List.drop_nil, List.take_nil]
  split
  · rfl
  · simp only [PageResult.mk.injEq, true_and, and_true]
    omega

/-- Requesting a page beyond `total_pages` is the same as requesting the last
page. -/
theorem paginate_overflow (content : List Char) (page : Int) (limit : Nat)
    (hgt : (totalPagesOf content.length limit : Int) < page) :
    paginate content page limit
      = paginate content (totalPagesOf content.length limit : Int) limit := by
  have htp1 : (1 : Int) ≤ (totalPagesOf content.length limit : Int) := by
    exact_mod_cast totalPagesOf_pos content.length limit
  have h1 : max (1 : Int) page = page := max_eq_right (by omega)
  have h2 : max (1 : Int) (totalPagesOf content.length limit : Int)
      = (totalPagesOf content.length limit : Int) := max_eq_right htp1
  simp only [paginate, h1, h2, if_pos hgt, lt_irrefl, ite_self,
    Int.toNat_natCast]

/-- C1: for every text and every `page_char_limit > 0`, concatenating the
`page_content` of `paginate` for pages `1` through `total_pages`, in order,
reconstructs the original text exactly, and each in-range page is precisely
the slice `text[(page-1)*limit : min(page*limit, len(text))]`. -/
theorem C1_paginate_reconstruct (content : List Char) (limit : Nat) (hl : 0 < limit) :
    ((List.range (paginate content 1 limit).totalPages).map
        (fun i : Nat => (paginate content ((i + 1 : Nat) : Int) limit).pageContent)).flatten
      = content
    ∧ (∀ p : Nat, 1 ≤ p → p ≤ (paginate content 1 limit).totalPages →
        (paginate content (p : Int) limit).pageContent
          = (content.drop ((p - 1) * limit)).take
              (min (p * limit) content.length - (p - 1) * limit)) := by
  constructor
  · rw [paginate_totalPages]
    have hfun : ∀ i ∈ List.range (totalPagesOf content.length limit),
        (fun i : Nat => (paginate content ((i + 1 : Nat) : Int) limit).pageContent) i
          = (content.drop (i * limit)).take limit := by
      intro i hi
      have hi' := List.mem_range.mp hi
      simp only
      rw [paginate_in_range content limit (i + 1) hl (by omega) (by omega)]
      simp
    rw [List.map_congr_left hfun]
    exact chunks_flatten limit _ content (le_totalPagesOf_mul content.length limit hl)
  · intro p hp1 hple
    rw [paginate_totalPages] at hple
    rw [paginate_in_range content limit p hl hp1 hple]
    rw [List.take_eq_take]
    simp only [List.length_take, List.length_drop]
    have hexp : p * limit = (p - 1) * limit + limit := by
      rw [Nat.sub_one_mul]
      have := Nat.one_le_iff_ne_zero.mp hp1
      have hle : limit ≤ p * limit := Nat.le_mul_of_pos_left limit (by omega)
      omega
    omega

theorem C1_paginate_reconstruct_witness :
    0 < 3
    ∧ (((List.range (paginate "abcdefgh".toList 1 3).totalPages).map
          (fun i : Nat => (paginate "abcdefgh".toList ((i + 1 : Nat) : Int) 3).pageContent)).flatten
        = "abcdefgh".toList
      ∧ (∀ p : Nat, 1 ≤ p → p ≤ (paginate "abcdefgh".toList 1 3).totalPages →
          (paginate "abcdefgh".toList (p : Int) 3).pageContent
            = ("abcdefgh".toList.drop ((p - 1) * 3)).take
                (min (p * 3) "abcdefgh".toList.length - (p - 1) * 3))) :=
  ⟨by decide, C1_paginate_reconstruct "abcdefgh".toList 3 (by decide)⟩

/-- C6: `total_pages` is `ceil(len(text)/page_char_limit)` with minimum 1
(characterized by: it is at least 1, its pages cover the text, and for
nonempty text the last page starts inside the text; empty text reports page
1 of 1 with empty content); a requested page above `total_pages` is clamped
down to `total_pages` and returns the last page's content, which is nonempty
for nonempty text; a requested page below 1 is clamped up to 1. -/
theorem C6_paginate_clamping (content : List Char) (page : Int) (limit : Nat)
    (hl : 0 < limit) :
    1 ≤ (paginate content page limit).totalPages
    ∧ content.length ≤ (paginate content page limit).totalPages * limit
    ∧ (content ≠ [] →
        ((paginate content page limit).totalPages - 1) * limit < content.length)
    ∧ (content = [] → paginate content page limit = ⟨[], 1, 1⟩)
    ∧ (((paginate content page limit).totalPages : Int) < page →
        paginate content page limit
          = paginate content ((paginate content page limit).totalPages : Int) limit
        ∧ (content ≠ [] → (paginate content page limit).pageContent ≠ []))
    ∧ (page < 1 → (paginate content page limit).pageNumber = 1) := by
  refine ⟨?_, ?_, ?_, ?_, ?_, ?_⟩
  · rw [paginate_totalPages]; exact totalPagesOf_pos _ _
  · rw [paginate_totalPages]; exact le_totalPagesOf_mul _ _ hl
  · intro hc
    rw [paginate_totalPages]
    exact totalPagesOf_pred_mul_lt _ _ hl (List.length_pos.mpr hc)
  · intro hc
    subst hc
    exact paginate_nil page limit hl
  · rw [paginate_totalPages]
    intro hgt
    refine ⟨paginate_overflow content page limit hgt, ?_⟩
    intro hc
    have hlt := totalPagesOf_pred_mul_lt content.length limit hl (List.length_pos.mpr hc)
    rw [paginate_overflow content page limit hgt,
      paginate_in_range content limit (totalPagesOf content.length limit) hl
        (totalPagesOf_pos _ _) (le_refl _)]
    simp only [ne_eq, List.take_eq_nil_iff, List.drop_eq_nil_iff, not_or]
    omega
  · intro hlt
    have h1 : max (1 : Int) page = 1 := max_eq_left (by omega)
    simp only [paginate, h1]
    have htp1 : (1 : Int) ≤ (totalPagesOf content.length limit : Int) := by
      exact_mod_cast totalPagesOf_pos content.length limit
    rw [if_neg (by omega)]
    rfl

theorem C6_paginate_clamping_witness :
    0 < 2
    ∧ (1 ≤ (paginate "abcde".toList 9 2).totalPages
      ∧ "abcde".toList.length ≤ (paginate "abcde".toList 9 2).totalPages * 2
      ∧ ("abcde".toList ≠ [] →
          ((paginate "abcde".toList 9 2).totalPages - 1) * 2 < "abcde".toList.length)
      ∧ ("abcde".toList = [] → paginate "abcde".toList 9 2 = ⟨[], 1, 1⟩)
      ∧ (((paginate "abcde".toList 9 2).totalPages : Int) < 9 →
          paginate "abcde".toList 9 2
            = paginate "abcde".toList ((paginate "abcde".toList 9 2).totalPages : Int) 2
          ∧ ("abcde".toList ≠ [] → (paginate "abcde".toList 9 2).pageContent ≠ []))
      ∧ ((9 : Int) < 1 → (paginate "abcde".toList 9 2).pageNumber = 1)) :=
  ⟨by decide, C6_paginate_clamping "abcde".toList 9 2 (by decide)⟩

/-- C10: `max_chars` is clamped into `[1000, 100000]` and the requested page
is clamped up to at least 1 before pagination, so every call yields a
well-defined page whose content never exceeds the clamped per-page limit. -/
theorem C10_param_clamping (content : List Char) (page maxChars : Int) :
    1000 ≤ clampMaxChars maxChars
    ∧ clampMaxChars maxChars ≤ 100000
    ∧ 1 ≤ (getPaperContentPaginate content page maxChars).pageNumber
    ∧ (getPaperContentPaginate content page maxChars).pageContent.length
        ≤ (clampMaxChars maxChars).toNat := by
  refine ⟨?_, ?_, ?_, ?_⟩
  · simp only [clampMaxChars]; omega
  · simp only [clampMaxChars]
    have : min maxChars 100000 ≤ 100000 := min_le_right _ _
    omega
  · exact paginate_pageNumber_pos _ _ _
  · exact paginate_content_le _ _ _

/-! # SearchRanker: arxiv_search.py, ArxivSearch._smart_sort (lines 161-192)
and the truncation in ArxivSearch.search (lines 152-159)

The Python code attaches `_relevance_rank = idx` (zero-based provider rank)
to each result, then

    relevance_score = 1.0 / (1.0 + rank * 0.1)
    days_ago = (now - pub_date.replace(tzinfo=None)).days
    time_score = 1.0 / (1.0 + days_ago / 180)   # 0.5 when pub_date is None
    paper._smart_score = 0.6 * relevance_score + 0.4 * time_score
    papers.sort(key=lambda p: ..., reverse=True)  # CPython sort is stable
    return papers[:max_results]

Each result is modelled by its provider rank together with its optional
publish timestamp in seconds (`papers.enum` pairs each timestamp with its
zero-based rank, exactly like the `idx` tag in `search`). Scores live in ℚ;
`days_ago` is floor division by 86400 seconds, matching `timedelta.days`.
CPython `list.sort(reverse=True)` is the unique stable descending sort, so
it is modelled by `List.insertionSort` with the relation
`smartRel now a b ↔ score b ≤ score a` (any two stable sorts with respect
to the same preorder agree). Python slicing `papers[:n]` for possibly
negative `n` is modelled by `pyTake`. -/

def relevanceScore (rank : Nat) : ℚ := 1 / (1 + (rank : ℚ) * 0.1)

def timeScore (now : Int) (pubSec : Option Int) : ℚ :=
  match pubSec with
  | some p => 1 / (1 + (((now - p).fdiv 86400 : Int) : ℚ) / 180)
  | none => 0.5

def smartScore (now : Int) (rank : Nat) (pubSec : Option Int) : ℚ :=
  0.6 * relevanceScore rank + 0.4 * timeScore now pubSec

/-- Stable-descending comparison used by the sort: `a` may stay before `b`
when the composite score of `b` does not exceed the composite score of `a`. -/
def smartRel (now : Int) (a b : Nat × Option Int) : Prop :=
  smartScore now b.1 b.2 ≤ smartScore now a.1 a.2

instance (now : Int) : DecidableRel (smartRel now) := fun a b =>
  inferInstanceAs (Decidable (smartScore now b.1 b.2 ≤ smartScore now a.1 a.2))

instance (now : Int) : IsTotal (Nat × Option Int) (smartRel now) :=
  ⟨fun a b => le_total (smartScore now b.1 b.2) (smartScore now a.1 a.2)⟩

instance (now : Int) : IsTrans (Nat × Option Int) (smartRel now) :=
  ⟨fun _ _ _ hab hbc => le_trans hbc hab⟩

/-- Python slicing `l[:n]`, which for negative `n` keeps all but the last
`|n|` elements rather than returning the empty list. -/
def pyTake (n : Int) (l : List α) : List α :=
  if 0 ≤ n then l.take n.toNat else l.take (l.length - (-n).toNat)

/-- The scored, stably descending-sorted result list (before truncation). -/
def smartSorted (now : Int) (papers : List (Option Int)) : List (Nat × Option Int) :=
  (papers.enum).insertionSort (smartRel now)

/-- ArxivSearch._smart_sort: sort by composite score (stable, descending),
then `papers[:max_results]`. -/
def smart_sort (now : Int) (papers : List (Option Int)) (maxResults : Int) :
    List (Nat × Option Int) :=
  pyTake maxResults (smartSorted now papers)

/-- ArxivSearch.search lines 152-159: smart sort only when requested and the
raw result list is nonempty, otherwise plain truncation `results[:max_results]`. -/
def searchSelect (now : Int) (isSmartSort : Bool) (results : List (Option Int))
    (maxResults : Int) : List (Nat × Option Int) :=
  if isSmartSort = true ∧ results ≠ [] then smart_sort now results maxResults
  else pyTake maxResults results.enum

theorem pyTake_natCast (n : Nat) (l : List α) : pyTake (n : Int) l = l.take n := by
  simp [pyTake, Int.toNat_natCast]

/-- C2: under smart ranking the result at zero-based provider rank `r`
receives `relevance_score = 1/(1 + 0.1*r)`; `recency_score` is
`1/(1 + days_ago/180)`, defaulting to `0.5` for a missing timestamp; the
composite is `0.6*relevance + 0.4*recency`; the output is the input sorted
descending by composite score, stable on ties (elements of any fixed score
keep their original relative order), truncated to `N`; and the function is
pure, so two runs on identical input agree. -/
theorem C2_smart_sort_spec (now : Int) (papers : List (Option Int)) (n : Nat) :
    (∀ r : Nat, ∀ pub : Option Int,
        smartScore now r pub
          = 0.6 * (1 / (1 + (r : ℚ) * 0.1)) + 0.4 * timeScore now pub)
    ∧ timeScore now none = 0.5
    ∧ List.Perm (smartSorted now papers) (papers.enum)
    ∧ (smart_sort now papers (n : Int)).Pairwise
        (fun a b => smartScore now b.1 b.2 ≤ smartScore now a.1 a.2)
    ∧ (∀ s : ℚ, (smartSorted now papers).filter
          (fun a => smartScore now a.1 a.2 == s)
        = (papers.enum).filter (fun a => smartScore now a.1 a.2 == s))
    ∧ smart_sort now papers (n : Int) = (smartSorted now papers).take n
    ∧ (smart_sort now papers (n : Int)).length = min n papers.length
    ∧ smart_sort now papers (n : Int) = smart_sort now papers (n : Int) := by
  refine ⟨fun r pub => rfl, rfl, ?_, ?_, ?_, ?_, ?_, rfl⟩
  · exact List.perm_insertionSort _ _
  · have hs : (smartSorted now papers).Pairwise (smartRel now) :=
      List.sorted_insertionSort (smartRel now) (papers.enum)
    have htake : smart_sort now papers (n : Int) = (smartSorted now papers).take n :=
      pyTake_natCast n _
    rw [htake]
    exact hs.sublist (List.take_sublist n _)
  · intro s
    have hsub : List.Sublist
        ((papers.enum).filter (fun a => smartScore now a.1 a.2 == s))
        (smartSorted now papers) := by
      apply List.sublist_insertionSort
      · apply List.pairwise_of_forall_mem_list
        intro a ha b hb
        have ha' : smartScore now a.1 a.2 = s := by
          simpa using (List.mem_filter.mp ha).2
        have hb' : smartScore now b.1 b.2 = s := by
          simpa using (List.mem_filter.mp hb).2
        show smartScore now b.1 b.2 ≤ smartScore now a.1 a.2
        rw [ha', hb']
      · exact List.filter_sublist _
    have hfix : ((papers.enum).filter (fun a => smartScore now a.1 a.2 == s)).filter
        (fun a => smartScore now a.1 a.2 == s)
        = (papers.enum).filter (fun a => smartScore now a.1 a.2 == s) :=
      List.filter_eq_self.mpr (fun a ha => (List.mem_filter.mp ha).2)
    have hsub2 : List.Sublist
        ((papers.enum).filter (fun a => smartScore now a.1 a.2 == s))
        ((smartSorted now papers).filter (fun a => smartScore now a.1 a.2 == s)) := by
      have := hsub.filter (fun a => smartScore now a.1 a.2 == s)
      rwa [hfix] at this
    have hperm : List.Perm
        ((smartSorted now papers).filter (fun a => smartScore now a.1 a.2 == s))
        ((papers.enum).filter (fun a => smartScore now a.1 a.2 == s)) :=
      (List.perm_insertionSort _ _).filter _
    exact (hsub2.eq_of_length hperm.length_eq.symm).symm
  · exact pyTake_natCast n _
  · unfold smart_sort
    rw [pyTake_natCast n _]
    simp [smartSorted]

/-- C9 counterexample: the claim says every target count `N ≤ 0` yields an
empty output, but `papers[:max_results]` with `max_results = -1` on a
two-element ranked list keeps the first element (Python slicing drops only
the last one), so the output is not empty. -/
theorem C9_counterexample :
    smart_sort 0 [none, none] (-1) = [((0 : Nat), (none : Option Int))]
    ∧ (-1 : Int) ≤ 0
    ∧ [((0 : Nat), (none : Option Int))] ≠ [] := by
  refine ⟨?_, by norm_num, by simp⟩
  have hrel : smartRel 0 (0, (none : Option Int)) (1, none) := by
    unfold smartRel smartScore relevanceScore timeScore
    norm_num
  unfold smart_sort smartSorted
  have henum : ([none, none] : List (Option Int)).enum = [(0, none), (1, none)] := rfl
  rw [henum]
  have hsort : List.insertionSort (smartRel 0) [(0, (none : Option Int)), (1, none)]
      = [(0, none), (1, none)] := by
    simp [List.insertionSort, List.orderedInsert, hrel]
  rw [hsort]
  simp [pyTake]

/-- C9 amended: an empty raw result set yields an empty output for every
target count; `N = 0` yields an empty output; but a negative `N` keeps all
but the last `|N|` ranked results (Python slice semantics) instead of
returning the empty list. -/
theorem C9_amended (now : Int) (isSmartSort : Bool) (results : List (Option Int))
    (nn : Int) :
    (results = [] → searchSelect now isSmartSort results nn = [])
    ∧ smart_sort now results 0 = []
    ∧ (nn < 0 → (smart_sort now results nn).length = results.length - (-nn).toNat) := by
  refine ⟨?_, ?_, ?_⟩
  · intro h
    subst h
    simp [searchSelect, smart_sort, smartSorted, pyTake]
  · unfold smart_sort
    have h0 : ((0 : Nat) : Int) = 0 := rfl
    rw [← h0, pyTake_natCast 0 _]
    rfl
  · intro hneg
    unfold smart_sort pyTake
    rw [if_neg (by omega)]
    simp [smartSorted]

theorem C9_amended_witness :
    (([] : List (Option Int)) = [] → searchSelect 0 true [] (-1) = [])
    ∧ smart_sort 0 ([] : List (Option Int)) 0 = []
    ∧ ((-1 : Int) < 0 →
        (smart_sort 0 ([] : List (Option Int)) (-1)).length
          = ([] : List (Option Int)).length - (-(-1) : Int).toNat) :=
  C9_amended 0 true [] (-1)

/-! # TextExtractor: pdf_converter.py, PDFConverter.convert (lines 36-95)

The Python code, after existence and 1000-byte checks:

    markdown_content = None; error_msg = None
    if self._markitdown:
        try:
            markdown_content = self._markitdown.convert(pdf_path).text_content
            if markdown_content and len(markdown_content.strip()) > 100:
                print("markitdown ok")          # only logging
        except Exception as e:
            error_msg = str(e)
    if not markdown_content and self._pymupdf_available:
        try: markdown_content = self._convert_with_pymupdf(pdf_path)
        except Exception: pass
    if not markdown_content or len(markdown_content.strip()) < 50:
        raise Exception(...)
    return markdown_content

The two extraction engines are modelled as oracles: `primary` is `none`
when markitdown is not installed, `some .raised` when it raised, and
`some (.text s)` when it returned text `s` (a `None` text_content behaves
like the empty string and is folded into `.raised`-free `none`-text via
`strFalsy`); `fallbackPages` is the page list pymupdf would extract
(`none` when it raises). Python truthiness of a string is emptiness.
`trimChars` models `str.strip()` structurally (whitespace at both ends). -/

inductive PrimaryOutcome where
  | raised : PrimaryOutcome
  | text : String → PrimaryOutcome
deriving DecidableEq, Repr

inductive ConvError where
  | fileNotFound : ConvError
  | fileTooSmall : Nat → ConvError
  | conversionFailed : Bool → ConvError
deriving DecidableEq, Repr

/-- Python `str.strip()`: drop whitespace from both ends. -/
def trimChars (l : List Char) : List Char :=
  ((l.dropWhile Char.isWhitespace).reverse.dropWhile Char.isWhitespace).reverse

/-- Python string truthiness on an optional string: `None` and `""` are falsy. -/
def strFalsy : Option String → Bool
  | none => true
  | some s => s == ""

/-- One page block of the fallback engine: `f"## Page {page_num}\n\n{text}"`
with 1-based page numbers. -/
def pageSection (idx : Nat) (text : String) : String :=
  "## Page " ++ toString (idx + 1) ++ "\n\n" ++ text

/-- PDFConverter._convert_with_pymupdf (lines 97-111): emit each page with a
nonempty stripped text under a page heading, joined by `\n\n---\n\n`. -/
def convert_with_pymupdf (pages : List String) : String :=
  String.intercalate "\n\n---\n\n"
    (((pages.enum).filter (fun p => trimChars p.2.data != [])).map
      (fun p => pageSection p.1 p.2))

/-- PDFConverter.convert (lines 36-95). -/
def convert (fileExists : Bool) (fileSize : Nat) (primary : Option PrimaryOutcome)
    (pymupdfAvailable : Bool) (fallbackPages : Option (List String)) :
    Except ConvError String :=
  if fileExists = false then .error .fileNotFound
  else if fileSize < 1000 then .error (.fileTooSmall fileSize)
  else
    let md0 : Option String :=
      match primary with
      | some (.text s) => some s
      | _ => none
    let errCaptured : Bool :=
      match primary with
      | some .raised => true
      | _ => false
    let md1 : Option String :=
      if strFalsy md0 = true ∧ pymupdfAvailable = true then
        match fallbackPages with
        | some pages => some (convert_with_pymupdf pages)
        | none => md0
      else md0
    if strFalsy md1 = true ∨ (trimChars (md1.getD "").data).length < 50 then
      .error (.conversionFailed errCaptured)
    else .ok (md1.getD "")

/-- A 40-character primary-engine result (all letters, so stripping is the
identity). -/
def fortyCharResult : String := "aaaaaaaaaaaaaaaaaaaaaaaaaaaaaaaaaaaaaaaa"

/-- A healthy page for the fallback engine, longer than every threshold. -/
def richPage : String :=
  "bbbbbbbbbbbbbbbbbbbbbbbbbbbbbbbbbbbbbbbbbbbbbbbbbbbbbbbbbbbb" ++
  "bbbbbbbbbbbbbbbbbbbbbbbbbbbbbbbbbbbbbbbbbbbbbbbbbbbbbbbbbbbb"

deriving instance DecidableEq for Except

set_option maxRecDepth 8000 in
/-- C4 counterexample: with a 40-trimmed-character primary result and a
fallback engine available that would produce ample text, `convert` raises a
conversion error immediately; it does not fall through to the fallback
engine (whose output here easily satisfies every acceptance check). The
`> 100` test in the code only gates a log line. -/
theorem C4_counterexample :
    convert true 2000 (some (.text fortyCharResult)) true (some [richPage])
      = .error (.conversionFailed false)
    ∧ (trimChars fortyCharResult.data).length = 40
    ∧ 50 ≤ (trimChars (convert_with_pymupdf [richPage]).data).length := by
  refine ⟨by decide, by decide, by decide⟩

/-- C4 amended: the chain keeps the primary engine's output whenever it is a
nonempty string — the 100-character comparison in the code only gates a log
message. The fallback engine runs only when the primary engine is missing,
raised, or returned an empty text. A nonempty primary result is returned
as-is when its trimmed length reaches 50 and otherwise produces an
immediate conversion error; in particular a 40-trimmed-character primary
result errors out without reaching the fallback engine. When the primary
engine produced nothing, the available fallback output is used and checked
against emptiness and the 50-character floor. -/
theorem C4_amended (fileSize : Nat) (s : String) (avail : Bool)
    (fallbackPages : Option (List String))
    (hfs : 1000 ≤ fileSize) (hs : s ≠ "") :
    convert true fileSize (some (.text s)) avail fallbackPages
      = (if (trimChars s.data).length < 50
         then .error (.conversionFailed false) else .ok s)
    ∧ (∀ pages : List String,
        convert true fileSize none true (some pages)
          = (if convert_with_pymupdf pages = ""
                ∨ (trimChars (convert_with_pymupdf pages).data).length < 50
             then .error (.conversionFailed false)
             else .ok (convert_with_pymupdf pages))) := by
  have hbeq : (s == "") = false := by
    simp only [beq_eq_false_iff_ne, ne_eq]
    exact hs
  constructor
  · simp only [convert, strFalsy, hbeq, Bool.false_eq_true, false_and, if_false,
      Option.getD_some]
    rw [if_neg (by simp), if_neg (by omega)]
    simp
  · intro pages
    simp only [convert, strFalsy]
    rw [if_neg (by simp), if_neg (by omega)]
    simp only [true_and, and_self, if_true, Option.getD_some]
    by_cases hemp : convert_with_pymupdf pages = ""
    · rw [if_pos (by simp [hemp]), if_pos (by left; exact hemp)]
    · have hbeq2 : (convert_with_pymupdf pages == "") = false := by
        simp only [beq_eq_false_iff_ne, ne_eq]
        exact hemp
      by_cases hlen : (trimChars (convert_with_pymupdf pages).data).length < 50
      · rw [if_pos (by simp [hbeq2, hlen]), if_pos (by right; exact hlen)]
      · rw [if_neg (by simp [hbeq2, hlen]), if_neg (by simp [hemp, hlen])]

set_option maxRecDepth 8000 in
theorem C4_amended_witness :
    (convert true 2000 (some (.text fortyCharResult)) true (some [richPage])
      = (if (trimChars fortyCharResult.data).length < 50
         then .error (.conversionFailed false) else .ok fortyCharResult))
    ∧ (∀ pages : List String,
        convert true 2000 none true (some pages)
          = (if convert_with_pymupdf pages = ""
                ∨ (trimChars (convert_with_pymupdf pages).data).length < 50
             then .error (.conversionFailed false)
             else .ok (convert_with_pymupdf pages))) :=
  C4_amended 2000 fortyCharResult true (some [richPage]) (by decide) (by decide)

/-! # PaperCache: paper_tools/paper_cache.py

The SQLite table `papers` is modelled as a list of rows ordered by rowid
(`INSERT OR REPLACE` deletes the old row and appends a fresh one), the
filesystem as an association list from path to byte size. Timestamps are
seconds as `Int` (ISO-8601 strings of a fixed clock compare exactly like
their underlying instants, and `timedelta(days=d)` is `d * 86400` seconds).

`save` (lines 144-204) recomputes `file_size` from the *passed* path
arguments (both default to `None`), then executes

    INSERT OR REPLACE INTO papers (arxiv_id, ..., pdf_path, markdown_path,
        file_size, created_at, last_accessed) VALUES (...)

with `created_at = last_accessed = now`, and finally runs `cleanup`.

`cleanup` (lines 275-317) first deletes every row with
`created_at < cutoff` (age sweep, strict ISO-string comparison), then,
while `SUM(file_size)` exceeds `max_size_bytes`, deletes the row returned
by `ORDER BY file_size DESC LIMIT 1` (first row in rowid order among those
of maximal size). Each loop iteration removes one row, so the loop ends
after at most as many iterations as there are rows; the model makes that
explicit with fuel equal to the row count. -/

structure CacheConfig where
  maxSizeBytes : Nat
  maxAgeDays : Nat
deriving DecidableEq, Repr

structure PaperRow where
  arxivId : String
  title : String
  abstract : String
  authors : List String
  published : String
  pdfPath : Option String
  markdownPath : Option String
  fileSize : Nat
  createdAt : Int
  lastAccessed : Int
deriving DecidableEq, Repr

abbrev FileSys := List (String × Nat)

def secondsPerDay : Int := 86400

/-- `os.path.getsize` guarded by `os.path.exists`: 0 when the path is `None`
or absent on disk. -/
def pathOnDiskSize (fs : FileSys) : Option String → Nat
  | none => 0
  | some p =>
    match fs.find? (fun e => e.1 == p) with
    | some e => e.2
    | none => 0

/-- Lines 172-177 / 220-225: size of whichever of the two artifacts exist. -/
def computeFileSize (fs : FileSys) (pdf md : Option String) : Nat :=
  pathOnDiskSize fs pdf + pathOnDiskSize fs md

def removePath (fs : FileSys) : Option String → FileSys
  | none => fs
  | some p => fs.filter (fun e => e.1 != p)

/-- PaperCache._delete_paper_files (lines 319-331). -/
def delete_paper_files (fs : FileSys) (pdf md : Option String) : FileSys :=
  removePath (removePath fs pdf) md

/-- PaperCache.get_total_size: `SELECT SUM(file_size) FROM papers`. -/
def totalSize (db : List PaperRow) : Nat :=
  (db.map (fun r => r.fileSize)).sum

def ageCutoff (cfg : CacheConfig) (now : Int) : Int :=
  now - cfg.maxAgeDays * secondsPerDay

/-- Cleanup phase 1 (lines 283-299): delete artifacts and rows of every
record with `created_at < cutoff` (strict comparison). -/
def ageSweep (cfg : CacheConfig) (now : Int) (fs : FileSys) (db : List PaperRow) :
    FileSys × List PaperRow :=
  let cutoff := ageCutoff cfg now
  (db.foldl
    (fun acc r =>
      if r.createdAt < cutoff then delete_paper_files acc r.pdfPath r.markdownPath
      else acc) fs,
   db.filter (fun r => decide (ageCutoff cfg now ≤ r.createdAt)))

/-- `ORDER BY file_size DESC LIMIT 1`: the first row in rowid order among
those of maximal `file_size`. -/
def largestRow : List PaperRow → Option PaperRow
  | [] => none
  | r :: rs =>
    match largestRow rs with
    | none => some r
    | some m => if m.fileSize ≤ r.fileSize then some r else some m

/-- Cleanup phase 2 (lines 301-317): while the total exceeds the budget,
delete the largest record; the fuel argument bounds the iteration count by
the row count, which the loop can never exceed since every iteration
removes a row. -/
def sizeSweepFuel (maxSize : Nat) : Nat → FileSys → List PaperRow → FileSys × List PaperRow
  | 0, fs, db => (fs, db)
  | fuel + 1, fs, db =>
    if totalSize db ≤ maxSize then (fs, db)
    else
      match largestRow db with
      | none => (fs, db)
      | some r =>
        sizeSweepFuel maxSize fuel (delete_paper_files fs r.pdfPath r.markdownPath)
          (db.filter (fun x => x.arxivId != r.arxivId))

/-- PaperCache.cleanup (lines 275-317): age sweep, then size sweep. -/
def cleanup (cfg : CacheConfig) (now : Int) (fs : FileSys) (db : List PaperRow) :
    FileSys × List PaperRow :=
  let a := ageSweep cfg now fs db
  sizeSweepFuel cfg.maxSizeBytes a.2.length a.1 a.2

/-- SQLite `INSERT OR REPLACE` on the primary key: drop any row with the
same id, append the new row. -/
def insertOrReplace (db : List PaperRow) (r : PaperRow) : List PaperRow :=
  db.filter (fun x => x.arxivId != r.arxivId) ++ [r]

/-- PaperCache.save (lines 144-204). -/
def save (cfg : CacheConfig) (now : Int) (fs : FileSys) (db : List PaperRow)
    (arxivId title abstract : String) (authors : List String) (published : String)
    (pdfPath markdownPath : Option String) : FileSys × List PaperRow :=
  let fileSize := computeFileSize fs pdfPath markdownPath
  let row : PaperRow :=
    { arxivId := arxivId, title := title, abstract := abstract, authors := authors
      published := published, pdfPath := pdfPath, markdownPath := markdownPath
      fileSize := fileSize, createdAt := now, lastAccessed := now }
  cleanup cfg now fs (insertOrReplace db row)

theorem largestRow_mem : ∀ {db : List PaperRow} {r : PaperRow},
    largestRow db = some r → r ∈ db := by
  intro db
  induction db with
  | nil => intro r h; simp [largestRow] at h
  | cons a rs ih =>
    intro r h
    simp only [largestRow] at h
    cases hm : largestRow rs with
    | none =>
      simp only [hm] at h
      injection h with h
      exact h ▸ List.mem_cons_self a rs
    | some m =>
      simp only [hm] at h
      by_cases hle : m.fileSize ≤ a.fileSize
      · rw [if_pos hle] at h
        injection h with h
        exact h ▸ List.mem_cons_self a rs
      · rw [if_neg hle] at h
        injection h with h
        exact List.mem_cons_of_mem a (h ▸ ih hm)

theorem sizeSweepFuel_total_le (maxSize : Nat) :
    ∀ (fuel : Nat) (fs : FileSys) (db : List PaperRow), db.length ≤ fuel →
      totalSize (sizeSweepFuel maxSize fuel fs db).2 ≤ maxSize := by
  intro fuel
  induction fuel with
  | zero =>
    intro fs db h
    have hnil : db = [] := List.eq_nil_of_length_eq_zero (Nat.le_zero.mp h)
    subst hnil
    simp [sizeSweepFuel, totalSize]
  | succ fuel ih =>
    intro fs db h
    simp only [sizeSweepFuel]
    by_cases hle : totalSize db ≤ maxSize
    · rw [if_pos hle]
      exact hle
    · rw [if_neg hle]
      cases hl : largestRow db with
      | none =>
        cases db with
        | nil => simp [totalSize] at hle
        | cons a rs =>
          simp only [largestRow] at hl
          cases hm : largestRow rs with
          | none =>
            simp only [hm] at hl
            exact Option.noConfusion hl
          | some m =>
            simp only [hm] at hl
            by_cases hle2 : m.fileSize ≤ a.fileSize
            · rw [if_pos hle2] at hl; exact Option.noConfusion hl
            · rw [if_neg hle2] at hl; exact Option.noConfusion hl
      | some r =>
        apply ih
        have hmem := largestRow_mem hl
        have hlt : (db.filter (fun x => x.arxivId != r.arxivId)).length < db.length :=
          List.length_filter_lt_length_iff_exists.mpr ⟨r, hmem, by simp⟩
        omega

theorem sizeSweepFuel_mem_sub (maxSize : Nat) :
    ∀ (fuel : Nat) (fs : FileSys) (db : List PaperRow) (r : PaperRow),
      r ∈ (sizeSweepFuel maxSize fuel fs db).2 → r ∈ db := by
  intro fuel
  induction fuel with
  | zero =>
    intro fs db r h
    simp only [sizeSweepFuel] at h
    exact h
  | succ fuel ih =>
    intro fs db r h
    simp only [sizeSweepFuel] at h
    by_cases hle : totalSize db ≤ maxSize
    · rw [if_pos hle] at h
      exact h
    · rw [if_neg hle] at h
      cases hl : largestRow db with
      | none =>
        rw [hl] at h
        exact h
      | some m =>
        rw [hl] at h
        exact (List.mem_filter.mp (ih _ _ r h)).1

theorem cleanup_mem_sub (cfg : CacheConfig) (now : Int) (fs : FileSys)
    (db : List PaperRow) (r : PaperRow)
    (h : r ∈ (cleanup cfg now fs db).2) : r ∈ db := by
  unfold cleanup at h
  have h1 := sizeSweepFuel_mem_sub cfg.maxSizeBytes _ _ _ r h
  exact (List.mem_filter.mp h1).1

/-- C5: after every run of the cache cleanup (hence after every `save`,
which ends with a cleanup pass), the sum of `file_size` over the remaining
records is within the configured byte budget, or no records remain. -/
theorem C5_cleanup_size_budget (cfg : CacheConfig) (now : Int) (fs : FileSys)
    (db : List PaperRow) (arxivId title abstract : String) (authors : List String)
    (published : String) (pdfPath markdownPath : Option String) :
    (totalSize (cleanup cfg now fs db).2 ≤ cfg.maxSizeBytes
      ∨ (cleanup cfg now fs db).2 = [])
    ∧ (totalSize (save cfg now fs db arxivId title abstract authors published
          pdfPath markdownPath).2 ≤ cfg.maxSizeBytes
      ∨ (save cfg now fs db arxivId title abstract authors published
          pdfPath markdownPath).2 = []) := by
  constructor
  · left
    unfold cleanup
    exact sizeSweepFuel_total_le _ _ _ _ (le_refl _)
  · left
    unfold save cleanup
    exact sizeSweepFuel_total_le _ _ _ _ (le_refl _)

/-- C8: the age sweep deletes exactly the records whose `created_at`
strictly precedes the cutoff `now - max_age_days`; a record exactly at the
cutoff survives, one strictly older is evicted. -/
theorem C8_age_sweep_boundary (cfg : CacheConfig) (now : Int) (fs : FileSys)
    (db : List PaperRow) (r : PaperRow) :
    (r ∈ (ageSweep cfg now fs db).2
      ↔ r ∈ db ∧ ¬ (r.createdAt < ageCutoff cfg now))
    ∧ (r ∈ db → r.createdAt = ageCutoff cfg now → r ∈ (ageSweep cfg now fs db).2)
    ∧ (r.createdAt < ageCutoff cfg now → r ∉ (ageSweep cfg now fs db).2) := by
  have hiff : r ∈ (ageSweep cfg now fs db).2
      ↔ r ∈ db ∧ ¬ (r.createdAt < ageCutoff cfg now) := by
    unfold ageSweep
    rw [List.mem_filter]
    simp only [decide_eq_true_eq, not_lt]
  refine ⟨hiff, ?_, ?_⟩
  · intro hmem heq
    exact hiff.mpr ⟨hmem, by omega⟩
  · intro hlt hmem
    exact (hiff.mp hmem).2 hlt

theorem C8_age_sweep_boundary_witness :
    (let cfg : CacheConfig := ⟨1000000, 90⟩
     let rowOld : PaperRow :=
       ⟨"old", "t", "a", [], "2020-01-01", none, none, 0, -7776001, 0⟩
     let rowEdge : PaperRow :=
       ⟨"edge", "t", "a", [], "2020-01-01", none, none, 0, -7776000, 0⟩
     rowEdge ∈ (ageSweep cfg 0 [] [rowOld, rowEdge]).2
      ∧ rowOld ∉ (ageSweep cfg 0 [] [rowOld, rowEdge]).2) := by
  refine ⟨?_, ?_⟩
  · exact (C8_age_sweep_boundary ⟨1000000, 90⟩ 0 []
      [⟨"old", "t", "a", [], "2020-01-01", none, none, 0, -7776001, 0⟩,
       ⟨"edge", "t", "a", [], "2020-01-01", none, none, 0, -7776000, 0⟩]
      ⟨"edge", "t", "a", [], "2020-01-01", none, none, 0, -7776000, 0⟩).2.1
      (by decide) (by decide)
  · exact (C8_age_sweep_boundary ⟨1000000, 90⟩ 0 []
      [⟨"old", "t", "a", [], "2020-01-01", none, none, 0, -7776001, 0⟩,
       ⟨"edge", "t", "a", [], "2020-01-01", none, none, 0, -7776000, 0⟩]
      ⟨"old", "t", "a", [], "2020-01-01", none, none, 0, -7776001, 0⟩).2.2
      (by decide)

/-- A cached record that already has both artifact paths set. -/
def cachedRowEx : PaperRow :=
  ⟨"x", "t", "ab", ["au"], "2024-01-01", some "a.pdf", some "a.md", 800, 0, 0⟩

def cacheCfgEx : CacheConfig := ⟨1000000, 90⟩

def fsEx : FileSys := [("a.pdf", 500), ("a.md", 300)]

/-- The row actually stored by `save` in the scenario below. -/
def savedRowEx : PaperRow :=
  ⟨"x", "t2", "ab2", [], "2024-01-02", none, none, 0, 100, 100⟩

/-- C3 counterexample: the identifier `"x"` already has a record with both
artifact paths set and 800 on-disk artifact bytes. Calling
`save("x", metadata)` (paths defaulting to `None`) replaces the whole row:
the stored paths become `None`, `file_size` becomes 0 (computed from the
passed `None` paths, not from the artifacts that still exist on disk), and
`created_at` is reset from 0 to the save time 100. -/
theorem C3_counterexample :
    ((save cacheCfgEx 100 fsEx [cachedRowEx] "x" "t2" "ab2" [] "2024-01-02"
        none none).2.find? (fun r => r.arxivId == "x")).map
      (fun r => (r.pdfPath, r.markdownPath, r.createdAt, r.fileSize))
      = some (none, none, 100, 0)
    ∧ cachedRowEx.pdfPath = some "a.pdf"
    ∧ cachedRowEx.markdownPath = some "a.md"
    ∧ cachedRowEx.createdAt = 0
    ∧ computeFileSize fsEx cachedRowEx.pdfPath cachedRowEx.markdownPath = 800
    ∧ (∃ r ∈ (save cacheCfgEx 100 fsEx [cachedRowEx] "x" "t2" "ab2" []
          "2024-01-02" none none).2,
        r.arxivId = "x" ∧ r.pdfPath ≠ cachedRowEx.pdfPath
          ∧ r.createdAt ≠ cachedRowEx.createdAt
          ∧ r.fileSize ≠ computeFileSize fsEx cachedRowEx.pdfPath
              cachedRowEx.markdownPath) := by
  refine ⟨by decide, by decide, by decide, by decide, by decide, by decide⟩

/-- C3 amended: `save(id, metadata, pdf_path=None, markdown_path=None)`
replaces the entire row for `id`: the stored artifact paths become exactly
the passed arguments (`None` by default), `size_bytes` is recomputed from
the passed paths only (0 when both are `None`, regardless of artifacts
still on disk), and both `created_at` and `last_accessed` are reset to the
save time. -/
theorem C3_amended (cfg : CacheConfig) (now : Int) (fs : FileSys) (db : List PaperRow)
    (arxivId title abstract : String) (authors : List String) (published : String)
    (pdfPath markdownPath : Option String) :
    ∀ r ∈ (save cfg now fs db arxivId title abstract authors published
        pdfPath markdownPath).2,
      r.arxivId = arxivId →
        r.pdfPath = pdfPath ∧ r.markdownPath = markdownPath
        ∧ r.fileSize = computeFileSize fs pdfPath markdownPath
        ∧ r.createdAt = now ∧ r.lastAccessed = now
        ∧ r.title = title ∧ r.abstract = abstract
        ∧ r.authors = authors ∧ r.published = published := by
  intro r hr hid
  unfold save at hr
  have h1 : r ∈ insertOrReplace db
      { arxivId := arxivId, title := title, abstract := abstract, authors := authors
        published := published, pdfPath := pdfPath, markdownPath := markdownPath
        fileSize := computeFileSize fs pdfPath markdownPath
        createdAt := now, lastAccessed := now } :=
    cleanup_mem_sub cfg now fs _ r hr
  unfold insertOrReplace at h1
  rcases List.mem_append.mp h1 with hL | hR
  · have hne := (List.mem_filter.mp hL).2
    simp only [bne_iff_ne, ne_eq] at hne
    exact absurd hid hne
  · have heq : r = _ := List.mem_singleton.mp hR
    subst heq
    exact ⟨rfl, rfl, rfl, rfl, rfl, rfl, rfl, rfl, rfl⟩

theorem C3_amended_witness :
    savedRowEx.pdfPath = none ∧ savedRowEx.markdownPath = none
    ∧ savedRowEx.fileSize = computeFileSize fsEx none none
    ∧ savedRowEx.createdAt = 100 ∧ savedRowEx.lastAccessed = 100
    ∧ savedRowEx.title = "t2" ∧ savedRowEx.abstract = "ab2"
    ∧ savedRowEx.authors = [] ∧ savedRowEx.published = "2024-01-02" :=
  C3_amended cacheCfgEx 100 fsEx [cachedRowEx] "x" "t2" "ab2" [] "2024-01-02"
    none none savedRowEx (by decide) (by decide)

/-! # DocumentFetcher: arxiv_search.py, ArxivSearch.download_pdf (lines
227-276) and _verify_pdf (lines 278-315)

A file is a byte list. `_verify_pdf` checks: existence, at least 10000
bytes, the `%PDF` magic at the start (the code reads 8 bytes and calls
`startswith(b'%PDF')`, equivalent to a 4-byte head check on a file of at
least 10000 bytes), and the `%%EOF` marker somewhere in the last 128 bytes
(`f.seek(-128, 2); tail = f.read()`).

`download_pdf` first handles a pre-existing file at `save_path`: a valid
file short-circuits to success with no download; an invalid one is removed
and the retry loop runs. Each loop attempt is an oracle entry: `some bytes`
when the network produced a candidate file, `none` when it raised or
yielded no paper. The sleeps between attempts do not affect the result. -/

def pdfMagic : List Nat := [37, 80, 68, 70]

def pdfEofMark : List Nat := [37, 37, 69, 79, 70]

/-- `data.startswith(pat)` on byte lists. -/
def bytesStartWith : List Nat → List Nat → Bool
  | [], _ => true
  | _ :: _, [] => false
  | p :: ps, b :: bs => p == b && bytesStartWith ps bs

/-- `pat in data` (contiguous subsequence) on byte lists. -/
def bytesContain (pat : List Nat) : List Nat → Bool
  | [] => bytesStartWith pat []
  | b :: rest => bytesStartWith pat (b :: rest) || bytesContain pat rest

/-- ArxivSearch._verify_pdf. -/
def verify_pdf : Option (List Nat) → Bool
  | none => false
  | some bytes =>
    decide (10000 ≤ bytes.length)
    && bytesStartWith pdfMagic bytes
    && bytesContain pdfEofMark (bytes.drop (bytes.length - 128))

structure FetchResult where
  success : Bool
  file : Option (List Nat)
  attemptsUsed : Nat
deriving DecidableEq, Repr

/-- The retry loop of download_pdf (lines 249-276): each oracle entry is one
attempt; a candidate that passes verification ends the loop, anything else
deletes the partial file and retries. -/
def downloadLoop : List (Option (List Nat)) → FetchResult
  | [] => ⟨false, none, 0⟩
  | o :: rest =>
    match o with
    | some bytes =>
      if verify_pdf (some bytes) then ⟨true, some bytes, 1⟩
      else
        let r := downloadLoop rest
        ⟨r.success, r.file, r.attemptsUsed + 1⟩
    | none =>
      let r := downloadLoop rest
      ⟨r.success, r.file, r.attemptsUsed + 1⟩

/-- ArxivSearch.download_pdf (lines 227-276): pre-existing file policy, then
the retry loop. -/
def download_pdf (existing : Option (List Nat)) (oracle : List (Option (List Nat))) :
    FetchResult :=
  match existing with
  | some bytes =>
    if verify_pdf (some bytes) then ⟨true, some bytes, 0⟩
    else downloadLoop oracle
  | none => downloadLoop oracle

/-- C7: a pre-existing file that passes the integrity check (exists, at
least 10000 bytes, `%PDF` head, `%%EOF` in the last 128 bytes) makes
`download_pdf` return success with no download attempt; a pre-existing file
that fails any check is discarded and the fresh download loop runs (using
at least one attempt when any attempt is available, and leaving no file
behind when no attempt is available). -/
theorem C7_download_existing (existing : List Nat) (oracle : List (Option (List Nat))) :
    (verify_pdf (some existing) = true →
      download_pdf (some existing) oracle = ⟨true, some existing, 0⟩)
    ∧ (verify_pdf (some existing) = false →
        download_pdf (some existing) oracle = downloadLoop oracle
        ∧ (oracle ≠ [] → 1 ≤ (download_pdf (some existing) oracle).attemptsUsed)
        ∧ (oracle = [] → download_pdf (some existing) oracle = ⟨false, none, 0⟩)) := by
  constructor
  · intro hv
    simp only [download_pdf, if_pos hv]
  · intro hv
    have hloop : download_pdf (some existing) oracle = downloadLoop oracle := by
      simp only [download_pdf, hv, Bool.false_eq_true, if_false]
    refine ⟨hloop, ?_, ?_⟩
    · intro hne
      rw [hloop]
      cases oracle with
      | nil => exact absurd rfl hne
      | cons o rest =>
        cases o with
        | some bytes =>
          simp only [downloadLoop]
          by_cases hvb : verify_pdf (some bytes) = true
          · rw [if_pos hvb]
          · rw [if_neg hvb]
            exact Nat.succ_le_succ (Nat.zero_le _)
        | none =>
          simp only [downloadLoop]
          exact Nat.succ_le_succ (Nat.zero_le _)
    · intro hnil
      subst hnil
      rw [hloop]
      rfl

theorem bytesStartWith_append (pat rest : List Nat) :
    bytesStartWith pat (pat ++ rest) = true := by
  induction pat with
  | nil => rfl
  | cons p ps ih => simp [bytesStartWith, ih]

/-- The EOF marker is found after any amount of space padding. -/
theorem bytesContain_eof_pad (k : Nat) :
    bytesContain pdfEofMark (List.replicate k 32 ++ pdfEofMark) = true := by
  induction k with
  | zero =>
    have h := bytesStartWith_append pdfEofMark []
    rw [List.append_nil] at h
    rw [List.replicate, List.nil_append]
    show (bytesStartWith pdfEofMark (37 :: [37, 69, 79, 70])
      || bytesContain pdfEofMark [37, 69, 79, 70]) = true
    rw [show (37 :: [37, 69, 79, 70] : List Nat) = pdfEofMark from rfl, h]
    rfl
  | succ k ih =>
    rw [List.replicate_succ, List.cons_append]
    show (bytesStartWith pdfEofMark (32 :: (List.replicate k 32 ++ pdfEofMark))
      || bytesContain pdfEofMark (List.replicate k 32 ++ pdfEofMark)) = true
    rw [ih, Bool.or_true]

/-- A 10000-byte well-formed document: magic head, space padding, EOF tail. -/
def goodFileEx : List Nat := pdfMagic ++ (List.replicate 9991 32 ++ pdfEofMark)

/-- A 5000-byte file, below the 10000-byte integrity floor. -/
def smallFileEx : List Nat := List.replicate 5000 0

theorem goodFileEx_length : goodFileEx.length = 10000 := by
  unfold goodFileEx
  rw [List.length_append, List.length_append, List.length_replicate]
  rfl

theorem verify_goodFileEx : verify_pdf (some goodFileEx) = true := by
  simp only [verify_pdf]
  rw [goodFileEx_length]
  have h1 : decide (10000 ≤ 10000) = true := by decide
  have h2 : bytesStartWith pdfMagic goodFileEx = true := bytesStartWith_append _ _
  have h3 : goodFileEx.drop (10000 - 128) = List.replicate 123 32 ++ pdfEofMark := by
    show goodFileEx.drop 9872 = _
    unfold goodFileEx
    rw [show (9872 : Nat) = pdfMagic.length + 9868 from rfl, List.drop_append,
      List.drop_append_of_le_length (by rw [List.length_replicate]; omega),
      List.drop_replicate]
  rw [h1, h2, h3, bytesContain_eof_pad 123]
  rfl

theorem verify_smallFileEx : verify_pdf (some smallFileEx) = false := by
  simp only [verify_pdf]
  have h : decide (10000 ≤ smallFileEx.length) = false := by
    unfold smallFileEx
    rw [List.length_replicate]
    rfl
  rw [h, Bool.false_and, Bool.false_and]

theorem C7_download_existing_witness :
    (verify_pdf (some goodFileEx) = true →
      download_pdf (some goodFileEx) [] = ⟨true, some goodFileEx, 0⟩)
    ∧ (verify_pdf (some goodFileEx) = false →
        download_pdf (some goodFileEx) [] = downloadLoop []
        ∧ ([] ≠ ([] : List (Option (List Nat))) →
            1 ≤ (download_pdf (some goodFileEx) []).attemptsUsed)
        ∧ ([] = ([] : List (Option (List Nat))) →
            download_pdf (some goodFileEx) [] = ⟨false, none, 0⟩))
    ∧ (verify_pdf (some smallFileEx) = false →
        download_pdf (some smallFileEx) [some goodFileEx]
          = downloadLoop [some goodFileEx]
        ∧ ([some goodFileEx] ≠ [] →
            1 ≤ (download_pdf (some smallFileEx) [some goodFileEx]).attemptsUsed)
        ∧ ([some goodFileEx] = [] →
            download_pdf (some smallFileEx) [some goodFileEx] = ⟨false, none, 0⟩))
    ∧ verify_pdf (some goodFileEx) = true
    ∧ verify_pdf (some smallFileEx) = false
    ∧ smallFileEx.length = 5000 :=
  ⟨(C7_download_existing goodFileEx []).1,
   (C7_download_existing goodFileEx []).2,
   (C7_download_existing smallFileEx [some goodFileEx]).2,
   verify_goodFileEx, verify_smallFileEx,
   by unfold smallFileEx; rw [List.length_replicate]⟩
